import Mathlib

/-!
Shallow embedding of the `cleanup_tool` crate (`src/cleanup_tool/src/main.rs`),
a one-shot repository hygiene tool:

* `is_git_clean` runs `git status --porcelain` and tests whether stdout is empty;
* `find_unused_code` walks the tree from the root, skips everything under the
  archive directory, skips non-files and zero-length files, and for every file
  whose name ends with `".bak"` or contains `"unused"` or `"legacy"` either
  prints the relative path (dry run) or creates the destination's parent
  directories, renames the file under `archive/` and appends one line to
  `archive/ARCHIVE_LOG.txt`;
* `rebuild_workspace` runs `cargo build` with stdout and stderr suppressed;
* `main` checks the git precondition, runs the scan, and in live mode runs the
  build, exiting `1` on a dirty tree, on an I/O error, or on a failed build.

The embedding makes all I/O explicit: filesystem answers (walk entries,
metadata, the results of `create_dir_all` / `rename` / append, git output and
build status) are inputs, and the filesystem/console operations the program
performs are recorded as a list of `Effect`s.  Rust panics (`unwrap` on a
failing value) are modelled as explicit `panicked` outcomes.
-/

namespace Cleanup

/-- A filesystem path, as its list of components.  The scan root `"."` is the
component list `["."]`; `root.join("archive")` is `[".", "archive"]`. -/
abbrev FsPath := List String

/-- The scan root, `PathBuf::from(".")` in `main`. -/
def rootPath : FsPath := ["."]

/-- The archive directory, `root.join("archive")` in `main`. -/
def archivePath : FsPath := [".", "archive"]

/-- Rendering of a path for console and log output, modelling
`Path::display` on the paths this tool builds (components joined by `/`). -/
def displayPath (p : FsPath) : String := String.intercalate "/" p

/-- Substring test on character lists: some suffix of `s` has `pat` as a
prefix.  Helper for `strContains`. -/
def strContainsAux (pat : List Char) : List Char → Bool
  | [] => pat.isEmpty
  | c :: r => pat.isPrefixOf (c :: r) || strContainsAux pat r

/-- Rust `str::contains` with a literal pattern: substring containment. -/
def strContains (s pat : String) : Bool := strContainsAux pat.data s.data

/-- Rust `str::ends_with` with a literal pattern. -/
def strEndsWith (s pat : String) : Bool := pat.data.isSuffixOf s.data

/-- The staleness predicate of `find_unused_code` line 22:
`filename.ends_with(".bak") || filename.contains("unused") || filename.contains("legacy")`. -/
def nameMatches (filename : String) : Bool :=
  strEndsWith filename ".bak" || strContains filename "unused" || strContains filename "legacy"

/-- Models `Path::file_name`: the final component when it is a normal name, `none`
when the path is empty or ends in the special components `"."` or `".."`. -/
def fileName? (p : FsPath) : Option String :=
  match p.getLast? with
  | none => none
  | some c => if c = "." then none else if c = ".." then none else some c

/-- Models `Path::strip_prefix`: drops `base` from the front of `p` when `base` is a
prefix, `none` otherwise. -/
def stripPrefix? (base p : FsPath) : Option FsPath :=
  if base.isPrefixOf p then some (p.drop base.length) else none

/-- Models `Path::parent`: `none` only for an empty path. -/
def parent? (p : FsPath) : Option FsPath :=
  if p = [] then none else some p.dropLast

deriving instance DecidableEq for Except

/-- One entry yielded by the `WalkDir` iterator, together with the answer the
filesystem gives to the `fs::metadata` call on it (`Except.error` models a
failing `fs::metadata(path)?`, `Except.ok len` a successful one reporting the
file length). -/
structure Entry where
  path : FsPath
  isFile : Bool
  metadata : Except String Nat
deriving Repr, DecidableEq

/-- The answers the filesystem gives to the mutating calls of the archiver:
`fs::create_dir_all`, `fs::rename`, and the append to the log file. -/
structure FsOps where
  mkdirRes : FsPath → Except String Unit
  renameRes : FsPath → FsPath → Except String Unit
  appendRes : String → Except String Unit

/-- Oracle under which every mutating filesystem call succeeds. -/
def okOps : FsOps := ⟨fun _ => Except.ok (), fun _ _ => Except.ok (), fun _ => Except.ok ()⟩

/-- An observable operation the program performs, in order.  `appendCreate`
models the `OpenOptions::new().append(true).create(true)` open followed by
`writeln!`: one line appended, the file created if absent.  `buildInvoke`
records the `cargo build` invocation with its two output streams redirected to
`Stdio::null()`. -/
inductive Effect where
  | println (s : String)
  | eprintln (s : String)
  | createDirAll (dir : FsPath)
  | rename (src dest : FsPath)
  | appendCreate (file : FsPath) (line : String)
  | buildInvoke (stdoutNull stderrNull : Bool)
deriving Repr, DecidableEq

/-- Result of the scan loop: normal completion, a propagated `io::Error`
(the `?` operator), or a Rust panic from a failing `unwrap`. -/
inductive ScanOutcome where
  | ok
  | ioError (msg : String)
  | panicked
deriving Repr, DecidableEq

/-- The audit log file, `archive.join("ARCHIVE_LOG.txt")`. -/
def logPath : FsPath := archivePath ++ ["ARCHIVE_LOG.txt"]

/-- The audit line written by `writeln!` in `find_unused_code` line 31:
`"{} archived {} to {} by cleanup tool"` applied to the timestamp, the
relative source path and the destination path. -/
def logLine (now : String) (rel dest : FsPath) : String :=
  now ++ " archived " ++ displayPath rel ++ " to " ++ displayPath dest ++ " by cleanup tool"

/-- How the scan loop body classifies one walk entry (lines 17-23 of
`find_unused_code`): skipped (under the archive, not a file, zero length, or
name not matching), aborted by a failing `fs::metadata(path)?`, panicking on a
failing `unwrap` of `file_name()` or `strip_prefix(root)`, or a candidate with
its path relative to the root. -/
inductive StepCase where
  | skip
  | ioErr (msg : String)
  | panic
  | candidate (rel : FsPath)
deriving Repr, DecidableEq

/-- The decision chain of the scan loop body, lines 17-23 of
`find_unused_code`: skip everything under `archive`, consider only files, abort
on a metadata error, skip zero-length files, unwrap the file name, test the
staleness predicate, and unwrap the root-relative path. -/
def classify (e : Entry) : StepCase :=
  if archivePath.isPrefixOf e.path then StepCase.skip
  else if e.isFile then
    match e.metadata with
    | Except.error m => StepCase.ioErr m
    | Except.ok len =>
      if len = 0 then StepCase.skip
      else
        match fileName? e.path with
        | none => StepCase.panic
        | some filename =>
          if nameMatches filename then
            match stripPrefix? rootPath e.path with
            | none => StepCase.panic
            | some rel => StepCase.candidate rel
          else StepCase.skip
  else StepCase.skip

/-- Holds exactly when the scan loop flags the entry as a candidate. -/
def flagged (e : Entry) : Bool :=
  match classify e with
  | StepCase.candidate _ => true
  | _ => false

/-- The live-mode archiver for one candidate, lines 28-31 of
`find_unused_code`: `create_dir_all(dest.parent().unwrap())?`, then
`rename(path, dest)?`, then the append of one `logLine` to the log file.  A
failing call propagates its error and performs no further operation; effects
record the operations that succeeded before the failure. -/
def archiveCandidate (ops : FsOps) (now : String) (e : Entry) (rel : FsPath) :
    List Effect × ScanOutcome :=
  match parent? (archivePath ++ rel) with
  | none => ([], ScanOutcome.panicked)
  | some par =>
    match ops.mkdirRes par with
    | Except.error m => ([], ScanOutcome.ioError m)
    | Except.ok _ =>
      match ops.renameRes e.path (archivePath ++ rel) with
      | Except.error m => ([Effect.createDirAll par], ScanOutcome.ioError m)
      | Except.ok _ =>
        match ops.appendRes (logLine now rel (archivePath ++ rel)) with
        | Except.error m =>
          ([Effect.createDirAll par, Effect.rename e.path (archivePath ++ rel)],
           ScanOutcome.ioError m)
        | Except.ok _ =>
          ([Effect.createDirAll par, Effect.rename e.path (archivePath ++ rel),
            Effect.appendCreate logPath (logLine now rel (archivePath ++ rel))], ScanOutcome.ok)

/-- One iteration of the scan loop on a successfully-yielded walk entry:
classification, then in dry-run mode the `println!("Would archive: {}", ...)`
report, in live mode the archiver. -/
def stepEntry (ops : FsOps) (dryRun : Bool) (now : String) (e : Entry) :
    List Effect × ScanOutcome :=
  match classify e with
  | StepCase.skip => ([], ScanOutcome.ok)
  | StepCase.ioErr m => ([], ScanOutcome.ioError m)
  | StepCase.panic => ([], ScanOutcome.panicked)
  | StepCase.candidate rel =>
    if dryRun then ([Effect.println ("Would archive: " ++ displayPath rel)], ScanOutcome.ok)
    else archiveCandidate ops now e rel

/-- One item yielded by the `WalkDir` iterator: a walk error or an entry. -/
abbrev WalkItem := Except String Entry

/-- The scan loop of `find_unused_code`, lines 15-36.  Walk errors are
dropped by `filter_map(|e| e.ok())`; a failing entry (`ioError` or `panicked`)
stops the loop, and the effects performed so far are kept. -/
def find_unused_code (ops : FsOps) (dryRun : Bool) (now : String) :
    List WalkItem → List Effect × ScanOutcome
  | [] => ([], ScanOutcome.ok)
  | Except.error _ :: rest => find_unused_code ops dryRun now rest
  | Except.ok e :: rest =>
    match stepEntry ops dryRun now e with
    | (effs, ScanOutcome.ok) =>
      ((effs ++ (find_unused_code ops dryRun now rest).1),
       (find_unused_code ops dryRun now rest).2)
    | (effs, out) => (effs, out)

/-- Models `is_git_clean`: the stdout of `git status --porcelain` and the test
`output.stdout.is_empty()`.  The input is `none` when the command itself could
not be run, in which case `.output().unwrap()` panics, modelled as `none`. -/
def is_git_clean (gitOut : Option String) : Option Bool :=
  match gitOut with
  | none => none
  | some out => some (out == "")

/-- Models `rebuild_workspace`: the exit status of `cargo build`.  The input is
`none` when the command could not be run, in which case `.status().unwrap()`
panics, modelled as `none`; otherwise `status.success()`. -/
def rebuild_workspace (buildStatus : Option Bool) : Option Bool := buildStatus

/-- Everything the environment feeds one invocation of the tool: the git
stdout (or `none` when the git query cannot run), the walk items in the order
`WalkDir` yields them, the filesystem answers to the mutating calls, the
rendered timestamp, and the build status (or `none` when `cargo` cannot run). -/
structure World where
  gitOut : Option String
  walkItems : List WalkItem
  ops : FsOps
  now : String
  buildStatus : Option Bool

/-- How the process ends: `exit code`, or a Rust panic. -/
inductive MainOutcome where
  | exit (code : Nat)
  | panicked
deriving Repr, DecidableEq

/-- The flag parse, `args.iter().any(|a| a == "--dry-run")`. -/
def parseDryRun (args : List String) : Bool := args.any (fun a => a == "--dry-run")

/-- Message printed on a dirty working tree (`main` line 50). -/
def dirtyMsg : String :=
  "Git working directory is not clean. Commit or stash changes before running cleanup."

/-- Message printed on a failed rebuild (`main` line 59). -/
def buildFailMsg : String :=
  "Workspace rebuild failed after cleanup. Review changes and restore from archive if needed."

/-- Message printed on a successful live run (`main` line 62). -/
def doneMsg : String := "Cleanup complete and workspace rebuilt successfully."

/-- Models `main`, lines 44-64: parse `--dry-run`, check `is_git_clean`, run
`find_unused_code`, and in live mode run `rebuild_workspace`.  Returns the
ordered effects and the way the process ends. -/
def main (args : List String) (w : World) : List Effect × MainOutcome :=
  let dryRun := parseDryRun args
  match is_git_clean w.gitOut with
  | none => ([], MainOutcome.panicked)
  | some false => ([Effect.eprintln dirtyMsg], MainOutcome.exit 1)
  | some true =>
    match find_unused_code w.ops dryRun w.now w.walkItems with
    | (effs, ScanOutcome.ioError m) =>
      (effs ++ [Effect.eprintln ("Error during cleanup: " ++ m)], MainOutcome.exit 1)
    | (effs, ScanOutcome.panicked) => (effs, MainOutcome.panicked)
    | (effs, ScanOutcome.ok) =>
      if dryRun then (effs, MainOutcome.exit 0)
      else
        match rebuild_workspace w.buildStatus with
        | none => (effs ++ [Effect.buildInvoke true true], MainOutcome.panicked)
        | some true =>
          (effs ++ [Effect.buildInvoke true true, Effect.println doneMsg], MainOutcome.exit 0)
        | some false =>
          (effs ++ [Effect.buildInvoke true true, Effect.eprintln buildFailMsg],
           MainOutcome.exit 1)

mutual

/-- A filesystem tree: a file with its length, or a directory with its named
children.  This is what `WalkDir::new(root)` traverses. -/
inductive FsTree where
  | file (size : Nat)
  | dir (children : FsChildren)

/-- The named children of a directory. -/
inductive FsChildren where
  | nil
  | cons (name : String) (tree : FsTree) (rest : FsChildren)

end

mutual

/-- The entries `WalkDir` yields for a tree, as (path relative to the root,
is-a-file, length) triples: the root itself first, then its descendants,
depth first.  A directory's length is irrelevant (the scan never reads it). -/
def walkTree : FsTree → List (FsPath × Bool × Nat)
  | FsTree.file sz => [([], true, sz)]
  | FsTree.dir cs => ([], false, 0) :: walkChildren cs

/-- The walk entries contributed by a directory's children. -/
def walkChildren : FsChildren → List (FsPath × Bool × Nat)
  | FsChildren.nil => []
  | FsChildren.cons n t rest =>
    (walkTree t).map (fun x => (n :: x.1, x.2.1, x.2.2)) ++ walkChildren rest

end

mutual

/-- A real directory tree only contains normal component names: a directory
entry is never literally named `"."` or `".."`. -/
def wfTree : FsTree → Bool
  | FsTree.file _ => true
  | FsTree.dir cs => wfChildren cs

/-- Extends `wfTree` to every child of a directory. -/
def wfChildren : FsChildren → Bool
  | FsChildren.nil => true
  | FsChildren.cons n t rest =>
    !(n == ".") && !(n == "..") && wfTree t && wfChildren rest

end

/-- The `Entry` the scan sees for one walk triple of the tree rooted at `"."`:
the full path prefixes the root component, and `fs::metadata` answers the
recorded length. -/
def entryOfWalk (x : FsPath × Bool × Nat) : Entry :=
  ⟨"." :: x.1, x.2.1, Except.ok x.2.2⟩

/-- The walk items `find_unused_code` consumes for a healthy walk of `t`
rooted at `"."`: every entry is yielded without a walk error. -/
def walkItemsOf (t : FsTree) : List WalkItem :=
  (walkTree t).map (fun x => Except.ok (entryOfWalk x))

/-- Where one entry sits after a completed live run: a flagged candidate now
lives at its mirrored path under `archive/`, every other entry is untouched. -/
def moveEntry (e : Entry) : Entry :=
  if flagged e then ⟨"." :: "archive" :: e.path.drop 1, e.isFile, e.metadata⟩ else e

/-- The audit log file as a walk entry of the post-run tree: it exists under
`archive/` and is non-empty once a line has been appended. -/
def logFileEntry : Entry := ⟨[".", "archive", "ARCHIVE_LOG.txt"], true, Except.ok 1⟩

/-- The walk of the same tree after a completed live run with no new files:
each previously-walked entry re-appears (moved under `archive/` if it was a
flagged candidate), and the audit log file now exists under `archive/`. -/
def afterLiveRun (items : List WalkItem) : List WalkItem :=
  items.map (fun it => it.map moveEntry) ++ [Except.ok logFileEntry]

example : walkItemsOf (FsTree.dir (FsChildren.cons "old.bak" (FsTree.file 10)
    (FsChildren.cons "src" (FsTree.dir (FsChildren.cons "lib_legacy.rs" (FsTree.file 3)
      FsChildren.nil)) FsChildren.nil))) =
    [Except.ok ⟨["."], false, Except.ok 0⟩,
     Except.ok ⟨[".", "old.bak"], true, Except.ok 10⟩,
     Except.ok ⟨[".", "src"], false, Except.ok 0⟩,
     Except.ok ⟨[".", "src", "lib_legacy.rs"], true, Except.ok 3⟩] := by decide

example : nameMatches "old.bak" = true := by decide
example : nameMatches "readme.txt" = false := by decide
example : nameMatches "my_unused_helper.rs" = true := by decide
example : nameMatches "legacy_api.rs" = true := by decide
example : nameMatches "Legacy.rs" = false := by decide
example : classify ⟨[".", "old.bak"], true, Except.ok 10⟩ = StepCase.candidate ["old.bak"] := by
  decide
example : classify ⟨[".", "empty_unused.txt"], true, Except.ok 0⟩ = StepCase.skip := by decide
example : classify ⟨[".", "archive", "stale_legacy.txt"], true, Except.ok 5⟩ = StepCase.skip := by
  decide
example :
    find_unused_code okOps true "t0" [Except.ok ⟨[".", "old.bak"], true, Except.ok 10⟩] =
      ([Effect.println "Would archive: old.bak"], ScanOutcome.ok) := by decide
example :
    find_unused_code okOps false "t0" [Except.ok ⟨[".", "old.bak"], true, Except.ok 10⟩] =
      ([Effect.createDirAll [".", "archive"],
        Effect.rename [".", "old.bak"] [".", "archive", "old.bak"],
        Effect.appendCreate [".", "archive", "ARCHIVE_LOG.txt"]
          "t0 archived old.bak to ./archive/old.bak by cleanup tool"], ScanOutcome.ok) := by
  decide

theorem stripPrefix_root_eq (p rel : FsPath) (h : stripPrefix? rootPath p = some rel) :
    p = "." :: rel := by
  unfold stripPrefix? at h
  split at h
  · rename_i hp
    cases p with
    | nil => simp [rootPath, List.isPrefixOf] at hp
    | cons a t =>
      simp [rootPath, List.isPrefixOf] at hp
      simp only [rootPath, List.length_cons, List.length_nil, List.drop_succ_cons,
        List.drop_zero, Option.some.injEq] at h
      rw [hp, h]
  · exact absurd h (by simp)

theorem classify_candidate_strip (e : Entry) (rel : FsPath)
    (h : classify e = StepCase.candidate rel) :
    stripPrefix? rootPath e.path = some rel := by
  unfold classify at h
  repeat' split at h
  all_goals simp_all

theorem classify_candidate_path (e : Entry) (rel : FsPath)
    (h : classify e = StepCase.candidate rel) : e.path = "." :: rel :=
  stripPrefix_root_eq e.path rel (classify_candidate_strip e rel h)

/-- C1: for every file in the walked tree, the scanner flags it as a candidate
if and only if its file name ends with `".bak"` or contains `"unused"` or
`"legacy"` (case-sensitively), its size is non-zero, and its path does not lie
under the archive directory; every other file is not flagged. -/
theorem candidate_iff (e : Entry) (sz : Nat) (f : String)
    (hfile : e.isFile = true) (hmeta : e.metadata = Except.ok sz)
    (hname : fileName? e.path = some f)
    (hroot : rootPath.isPrefixOf e.path = true) :
    flagged e = true ↔
      ((strEndsWith f ".bak" = true ∨ strContains f "unused" = true ∨
        strContains f "legacy" = true) ∧ sz ≠ 0 ∧ archivePath.isPrefixOf e.path = false) := by
  cases harc : archivePath.isPrefixOf e.path with
  | true => simp [flagged, classify, harc]
  | false =>
    by_cases hsz : sz = 0
    · subst hsz
      simp [flagged, classify, harc, hfile, hmeta, hname]
    · cases hm : nameMatches f with
      | true =>
        have hdisj : strEndsWith f ".bak" = true ∨ strContains f "unused" = true ∨
            strContains f "legacy" = true := by
          simpa [nameMatches, or_assoc] using hm
        simp [flagged, classify, harc, hfile, hmeta, hname, hsz, hm, stripPrefix?, hroot, hdisj]
      | false =>
        have hdisj := hm
        rw [nameMatches] at hdisj
        simp only [Bool.or_eq_false_iff] at hdisj
        simp [flagged, classify, harc, hfile, hmeta, hname, hsz, hm, hdisj.1.1, hdisj.1.2,
          hdisj.2]

/-- A concrete candidate file used by witnesses: `./old.bak`, 10 bytes. -/
def sampleEntry : Entry := ⟨[".", "old.bak"], true, Except.ok 10⟩

/-- Witness for C1 at the concrete file `./old.bak` of size 10. -/
theorem candidate_iff_witness :
    (sampleEntry.isFile = true ∧ sampleEntry.metadata = Except.ok 10 ∧
     fileName? sampleEntry.path = some "old.bak" ∧
     rootPath.isPrefixOf sampleEntry.path = true) ∧
    (flagged sampleEntry = true ↔
      ((strEndsWith "old.bak" ".bak" = true ∨ strContains "old.bak" "unused" = true ∨
        strContains "old.bak" "legacy" = true) ∧ (10 : Nat) ≠ 0 ∧
       archivePath.isPrefixOf sampleEntry.path = false)) :=
  ⟨⟨rfl, rfl, by decide, by decide⟩,
   candidate_iff sampleEntry 10 "old.bak" rfl rfl (by decide) (by decide)⟩

theorem parent_archive (rel : FsPath) :
    parent? (archivePath ++ rel) = some ((archivePath ++ rel).dropLast) := by
  simp [parent?, archivePath]

theorem stepEntry_dry_effects (ops : FsOps) (now : String) (e : Entry) :
    ∀ eff ∈ (stepEntry ops true now e).1, ∃ s, eff = Effect.println s := by
  unfold stepEntry
  cases hc : classify e <;> simp

theorem stepEntry_rename_mem (ops : FsOps) (now : String) (e : Entry) (src dest : FsPath)
    (h : Effect.rename src dest ∈ (stepEntry ops false now e).1) :
    Effect.println ("Would archive: " ++ displayPath (src.drop 1)) ∈
      (stepEntry ops true now e).1 := by
  cases hc : classify e with
  | skip => unfold stepEntry at h; rw [hc] at h; simp at h
  | ioErr m => unfold stepEntry at h; rw [hc] at h; simp at h
  | panic => unfold stepEntry at h; rw [hc] at h; simp at h
  | candidate rel =>
    have hpath := classify_candidate_path e rel hc
    unfold stepEntry at h ⊢
    rw [hc] at h ⊢
    simp only [Bool.false_eq_true, if_false] at h
    unfold archiveCandidate at h
    rw [parent_archive] at h
    simp only [] at h
    have hsrc : src = e.path := by
      cases hmk : ops.mkdirRes ((archivePath ++ rel).dropLast) with
      | error m => rw [hmk] at h; simp at h
      | ok u =>
        rw [hmk] at h
        cases hrn : ops.renameRes e.path (archivePath ++ rel) with
        | error m => rw [hrn] at h; simp at h
        | ok u2 =>
          rw [hrn] at h
          cases hap : ops.appendRes (logLine now rel (archivePath ++ rel)) with
          | error m => rw [hap] at h; simp at h; exact h.1
          | ok u3 => rw [hap] at h; simp at h; exact h.1
    rw [hsrc, hpath]
    simp

theorem stepEntry_live_ok_dry_ok (ops : FsOps) (now : String) (e : Entry)
    (h : (stepEntry ops false now e).2 = ScanOutcome.ok) :
    (stepEntry ops true now e).2 = ScanOutcome.ok := by
  cases hc : classify e <;> unfold stepEntry at h ⊢ <;> rw [hc] at h ⊢ <;> simp_all

theorem find_dry_all_println (ops : FsOps) (now : String) (items : List WalkItem) :
    ∀ eff ∈ (find_unused_code ops true now items).1, ∃ s, eff = Effect.println s := by
  induction items with
  | nil => simp [find_unused_code]
  | cons it rest ih =>
    cases it with
    | error m => simpa [find_unused_code] using ih
    | ok e =>
      intro eff hmem
      unfold find_unused_code at hmem
      cases hstep : stepEntry ops true now e with
      | mk effs out =>
        rw [hstep] at hmem
        cases out with
        | ok =>
          simp only [List.mem_append] at hmem
          rcases hmem with hl | hr
          · exact stepEntry_dry_effects ops now e eff (by rw [hstep]; exact hl)
          · exact ih eff hr
        | ioError m => exact stepEntry_dry_effects ops now e eff (by rw [hstep]; exact hmem)
        | panicked => exact stepEntry_dry_effects ops now e eff (by rw [hstep]; exact hmem)

theorem find_rename_reported (ops : FsOps) (now : String) (items : List WalkItem) :
    ∀ src dest : FsPath,
      Effect.rename src dest ∈ (find_unused_code ops false now items).1 →
      Effect.println ("Would archive: " ++ displayPath (src.drop 1)) ∈
        (find_unused_code ops true now items).1 := by
  induction items with
  | nil => simp [find_unused_code]
  | cons it rest ih =>
    cases it with
    | error m => simpa [find_unused_code] using ih
    | ok e =>
      intro src dest hmem
      unfold find_unused_code at hmem ⊢
      cases hL : stepEntry ops false now e with
      | mk effsL outL =>
      cases hD : stepEntry ops true now e with
      | mk effsD outD =>
      rw [hL] at hmem
      cases outL with
      | ok =>
        simp only [List.mem_append] at hmem
        rcases hmem with hl | hr
        · have hp := stepEntry_rename_mem ops now e src dest (by rw [hL]; exact hl)
          rw [hD] at hp
          cases outD with
          | ok => exact List.mem_append_left _ hp
          | ioError m => exact hp
          | panicked => exact hp
        · have hdok := stepEntry_live_ok_dry_ok ops now e (by rw [hL])
          rw [hD] at hdok
          cases outD with
          | ok => exact List.mem_append_right _ (ih src dest hr)
          | ioError m => simp at hdok
          | panicked => simp at hdok
      | ioError m =>
        have hp := stepEntry_rename_mem ops now e src dest (by rw [hL]; exact hmem)
        rw [hD] at hp
        cases outD with
        | ok => exact List.mem_append_left _ hp
        | ioError m2 => exact hp
        | panicked => exact hp
      | panicked =>
        have hp := stepEntry_rename_mem ops now e src dest (by rw [hL]; exact hmem)
        rw [hD] at hp
        cases outD with
        | ok => exact List.mem_append_left _ hp
        | ioError m2 => exact hp
        | panicked => exact hp

/-- C2: with the dry-run flag set, a run performs no filesystem mutation at
all (every effect of the scan is a console `println` report), and it reports
the relative path of every candidate that a live run over the same tree would
archive. -/
theorem dry_run_pure (ops : FsOps) (now : String) (items : List WalkItem) :
    (∀ eff ∈ (find_unused_code ops true now items).1, ∃ s, eff = Effect.println s) ∧
    (∀ src dest : FsPath,
       Effect.rename src dest ∈ (find_unused_code ops false now items).1 →
       Effect.println ("Would archive: " ++ displayPath (src.drop 1)) ∈
         (find_unused_code ops true now items).1) :=
  ⟨find_dry_all_println ops now items, find_rename_reported ops now items⟩

/-- C3: if the version-control working tree is dirty (the porcelain status
output is non-empty), every invocation — dry-run or live — prints the
dirty-tree message, exits with status 1, and performs no scan and no
filesystem mutation whatsoever. -/
theorem dirty_tree_aborts (args : List String) (w : World) (out : String)
    (hgit : w.gitOut = some out) (hdirty : (out == "") = false) :
    main args w = ([Effect.eprintln dirtyMsg], MainOutcome.exit 1) := by
  simp [main, is_git_clean, hgit, hdirty]

/-- A world whose git status query reports one pending modification. -/
def dirtyWorld : World := ⟨some " M src/main.rs", [Except.ok sampleEntry], okOps, "t0", some true⟩

/-- Witness for C3 at a concrete dirty world, in dry-run mode. -/
theorem dirty_tree_aborts_witness :
    dirtyWorld.gitOut = some " M src/main.rs" ∧ (" M src/main.rs" == "") = false ∧
    main ["--dry-run"] dirtyWorld = ([Effect.eprintln dirtyMsg], MainOutcome.exit 1) :=
  ⟨rfl, by decide, dirty_tree_aborts ["--dry-run"] dirtyWorld " M src/main.rs" rfl (by decide)⟩

/-- A world whose git status query cannot be executed at all. -/
def gitFailWorld : World := ⟨none, [Except.ok sampleEntry], okOps, "t0", some true⟩

/-- C6 (counter-evaluation): when the version-control status query cannot be
executed, `is_git_clean` hits `.output().unwrap()` and the process panics —
no scan and no mutation happen, but the tool does not treat the tree as
unclean: it neither returns the unclean signal nor takes the descriptive
dirty-tree abort path with exit status 1. -/
theorem git_query_failure_panics :
    main [] gitFailWorld = ([], MainOutcome.panicked) ∧
    is_git_clean gitFailWorld.gitOut ≠ some false ∧
    MainOutcome.panicked ≠ MainOutcome.exit 1 := by decide

/-- C7: traversal errors are silently skipped: a failing walk item anywhere
in the sequence never aborts the run — the scan behaves exactly as if the
failing item were absent, continuing with the remaining entries. -/
theorem walk_errors_skipped (ops : FsOps) (dryRun : Bool) (now msg : String)
    (xs ys : List WalkItem) :
    find_unused_code ops dryRun now (xs ++ Except.error msg :: ys) =
      find_unused_code ops dryRun now (xs ++ ys) := by
  induction xs with
  | nil => simp [find_unused_code]
  | cons it rest ih =>
    cases it with
    | error m => simpa [find_unused_code] using ih
    | ok e =>
      simp only [List.cons_append]
      unfold find_unused_code
      rw [ih]

theorem flagged_moveEntry (e : Entry) : flagged (moveEntry e) = false := by
  unfold moveEntry
  cases hf : flagged e with
  | false => simpa using hf
  | true =>
    simp only [if_true]
    unfold flagged classify
    simp [archivePath, List.isPrefixOf]

theorem stepEntry_not_flagged (ops : FsOps) (dryRun : Bool) (now : String) (e : Entry)
    (h : flagged e = false) : (stepEntry ops dryRun now e).1 = [] := by
  unfold flagged at h
  unfold stepEntry
  cases hc : classify e <;> simp_all

theorem find_no_flag_no_effects (ops : FsOps) (dryRun : Bool) (now : String)
    (items : List WalkItem) (h : ∀ e, Except.ok e ∈ items → flagged e = false) :
    (find_unused_code ops dryRun now items).1 = [] := by
  induction items with
  | nil => simp [find_unused_code]
  | cons it rest ih =>
    have ih2 := ih (fun e he => h e (List.mem_cons_of_mem _ he))
    cases it with
    | error m => unfold find_unused_code; exact ih2
    | ok e =>
      have he : flagged e = false := h e (List.mem_cons_self _ _)
      have hstep := stepEntry_not_flagged ops dryRun now e he
      unfold find_unused_code
      cases hs : stepEntry ops dryRun now e with
      | mk effs out =>
        rw [hs] at hstep
        cases out with
        | ok => simp_all
        | ioError m => simpa using hstep
        | panicked => simpa using hstep

/-- C5: live-mode archiving is idempotent on re-run: over the walk of the
tree a completed live run leaves behind (every candidate relocated to its
mirrored path under `archive/`, the audit log present under `archive/`, all
other entries unchanged), a second live scan performs no effect at all — it
archives no file and appends nothing to `ARCHIVE_LOG.txt`. -/
theorem rerun_idempotent (ops : FsOps) (now : String) (items : List WalkItem) :
    (find_unused_code ops false now (afterLiveRun items)).1 = [] := by
  apply find_no_flag_no_effects
  intro e he
  unfold afterLiveRun at he
  rw [List.mem_append] at he
  rcases he with hm | hl
  · rw [List.mem_map] at hm
    obtain ⟨it, hit, heq⟩ := hm
    cases it with
    | error m => simp [Except.map] at heq
    | ok e2 =>
      simp only [Except.map, Except.ok.injEq] at heq
      rw [← heq]
      exact flagged_moveEntry e2
  · simp only [List.mem_singleton, Except.ok.injEq] at hl
    rw [hl]
    decide

/-- C4: for each candidate archived in live mode, the tool — in this order —
creates the missing intermediate directories of the mirrored destination under
the archive root, renames the file to that destination, and only after the
rename appends exactly one line of the form
`<timestamp> archived <relative-source-path> to <destination-path> by cleanup tool`
to `ARCHIVE_LOG.txt` inside the archive directory, creating that log file if
absent (the `appendCreate` effect opens with append and create). -/
theorem live_archive_sequence (ops : FsOps) (now : String) (e : Entry) (rel : FsPath)
    (hc : classify e = StepCase.candidate rel)
    (hmk : ops.mkdirRes ((archivePath ++ rel).dropLast) = Except.ok ())
    (hrn : ops.renameRes e.path (archivePath ++ rel) = Except.ok ())
    (hap : ops.appendRes (logLine now rel (archivePath ++ rel)) = Except.ok ()) :
    stepEntry ops false now e =
      ([Effect.createDirAll ((archivePath ++ rel).dropLast),
        Effect.rename e.path (archivePath ++ rel),
        Effect.appendCreate logPath
          (now ++ " archived " ++ displayPath rel ++ " to " ++
           displayPath (archivePath ++ rel) ++ " by cleanup tool")],
       ScanOutcome.ok) := by
  unfold stepEntry
  rw [hc]
  simp only [Bool.false_eq_true, if_false]
  unfold archiveCandidate
  rw [parent_archive]
  simp only []
  rw [hmk, hrn, hap]
  simp [logLine]

/-- Witness for C4 at the concrete candidate `./old.bak`. -/
theorem live_archive_sequence_witness :
    classify sampleEntry = StepCase.candidate ["old.bak"] ∧
    stepEntry okOps false "t0" sampleEntry =
      ([Effect.createDirAll ((archivePath ++ ["old.bak"]).dropLast),
        Effect.rename sampleEntry.path (archivePath ++ ["old.bak"]),
        Effect.appendCreate logPath
          ("t0" ++ " archived " ++ displayPath ["old.bak"] ++ " to " ++
           displayPath (archivePath ++ ["old.bak"]) ++ " by cleanup tool")],
       ScanOutcome.ok) :=
  ⟨by decide, live_archive_sequence okOps "t0" sampleEntry ["old.bak"] (by decide) rfl rfl rfl⟩

theorem find_append_ok (ops : FsOps) (dryRun : Bool) (now : String) (xs zs : List WalkItem)
    (h : (find_unused_code ops dryRun now xs).2 = ScanOutcome.ok) :
    find_unused_code ops dryRun now (xs ++ zs) =
      ((find_unused_code ops dryRun now xs).1 ++ (find_unused_code ops dryRun now zs).1,
       (find_unused_code ops dryRun now zs).2) := by
  induction xs with
  | nil => simp [find_unused_code]
  | cons it rest ih =>
    rw [List.cons_append]
    cases it with
    | error m =>
      simp only [find_unused_code] at h ⊢
      exact ih h
    | ok e =>
      simp only [find_unused_code] at h ⊢
      cases hs : stepEntry ops dryRun now e with
      | mk effs out =>
        rw [hs] at h
        cases out with
        | ok =>
          have h2 : (find_unused_code ops dryRun now rest).2 = ScanOutcome.ok := h
          rw [ih h2]
          simp [List.append_assoc]
        | ioError m => simp at h
        | panicked => simp at h

/-- C8: any of the three archiver I/O failures — directory creation, rename,
or the log append — is fatal during a live run: the scan stops at the failing
candidate with exactly the effects that preceded the failure (`effs`), the
remaining walk items `ys` are never examined or archived, and the tool reports
the underlying error and exits with status 1. -/
theorem io_error_aborts (args : List String) (ops : FsOps) (now : String)
    (xs ys : List WalkItem) (e : Entry) (rel : FsPath) (msg : String) (build : Option Bool)
    (effs : List Effect)
    (hlive : parseDryRun args = false)
    (hxs : (find_unused_code ops false now xs).2 = ScanOutcome.ok)
    (hc : classify e = StepCase.candidate rel)
    (hfail :
      (ops.mkdirRes ((archivePath ++ rel).dropLast) = Except.error msg ∧ effs = []) ∨
      (ops.mkdirRes ((archivePath ++ rel).dropLast) = Except.ok () ∧
       ops.renameRes e.path (archivePath ++ rel) = Except.error msg ∧
       effs = [Effect.createDirAll ((archivePath ++ rel).dropLast)]) ∨
      (ops.mkdirRes ((archivePath ++ rel).dropLast) = Except.ok () ∧
       ops.renameRes e.path (archivePath ++ rel) = Except.ok () ∧
       ops.appendRes (logLine now rel (archivePath ++ rel)) = Except.error msg ∧
       effs = [Effect.createDirAll ((archivePath ++ rel).dropLast),
               Effect.rename e.path (archivePath ++ rel)])) :
    find_unused_code ops false now (xs ++ Except.ok e :: ys) =
      ((find_unused_code ops false now xs).1 ++ effs, ScanOutcome.ioError msg) ∧
    main args ⟨some "", xs ++ Except.ok e :: ys, ops, now, build⟩ =
      ((find_unused_code ops false now xs).1 ++
        (effs ++ [Effect.eprintln ("Error during cleanup: " ++ msg)]), MainOutcome.exit 1) := by
  have hstep : stepEntry ops false now e = (effs, ScanOutcome.ioError msg) := by
    unfold stepEntry
    rw [hc]
    simp only [Bool.false_eq_true, if_false]
    unfold archiveCandidate
    rw [parent_archive]
    simp only []
    rcases hfail with ⟨hmk, heffs⟩ | ⟨hmk, hrn, heffs⟩ | ⟨hmk, hrn, hap, heffs⟩
    · rw [heffs, hmk]
    · rw [heffs, hmk, hrn]
    · rw [heffs, hmk, hrn, hap]
  have hcons : find_unused_code ops false now (Except.ok e :: ys) =
      (effs, ScanOutcome.ioError msg) := by
    unfold find_unused_code
    rw [hstep]
  have hfull := find_append_ok ops false now xs (Except.ok e :: ys) hxs
  rw [hcons] at hfull
  refine ⟨hfull, ?_⟩
  simp [main, is_git_clean, hlive, hfull, List.append_assoc]

/-- Oracle whose directory creation succeeds but whose rename fails. -/
def renameFailOps : FsOps :=
  ⟨fun _ => Except.ok (), fun _ _ => Except.error "permission denied", fun _ => Except.ok ()⟩

/-- Witness for C8, exercising the rename-failure disjunct: the rename of
`./old.bak` fails after a successful directory creation, the trailing walk
item is never examined, and the run exits 1 after reporting the error. -/
theorem io_error_aborts_witness :
    find_unused_code renameFailOps false "t0"
        ([] ++ Except.ok sampleEntry :: [Except.ok logFileEntry]) =
      ((find_unused_code renameFailOps false "t0" []).1 ++
        [Effect.createDirAll ((archivePath ++ ["old.bak"]).dropLast)],
       ScanOutcome.ioError "permission denied") ∧
    main [] ⟨some "", [] ++ Except.ok sampleEntry :: [Except.ok logFileEntry],
        renameFailOps, "t0", some true⟩ =
      ((find_unused_code renameFailOps false "t0" []).1 ++
        ([Effect.createDirAll ((archivePath ++ ["old.bak"]).dropLast)] ++
         [Effect.eprintln ("Error during cleanup: " ++ "permission denied")]),
       MainOutcome.exit 1) :=
  io_error_aborts [] renameFailOps "t0" [] [Except.ok logFileEntry] sampleEntry ["old.bak"]
    "permission denied" (some true)
    [Effect.createDirAll ((archivePath ++ ["old.bak"]).dropLast)]
    rfl rfl (by decide) (Or.inr (Or.inl ⟨rfl, rfl, rfl⟩))

example :
    find_unused_code
      ⟨fun _ => Except.error "mkdir fail", fun _ _ => Except.ok (), fun _ => Except.ok ()⟩
      false "t0" [Except.ok sampleEntry, Except.ok logFileEntry] =
      ([], ScanOutcome.ioError "mkdir fail") := by decide

example :
    find_unused_code
      ⟨fun _ => Except.ok (), fun _ _ => Except.ok (), fun _ => Except.error "disk full"⟩
      false "t0" [Except.ok sampleEntry, Except.ok logFileEntry] =
      ([Effect.createDirAll [".", "archive"],
        Effect.rename [".", "old.bak"] [".", "archive", "old.bak"]],
       ScanOutcome.ioError "disk full") := by decide

theorem archiveCandidate_no_build (ops : FsOps) (now : String) (e : Entry) (rel : FsPath)
    (b1 b2 : Bool) : Effect.buildInvoke b1 b2 ∉ (archiveCandidate ops now e rel).1 := by
  unfold archiveCandidate
  rw [parent_archive]
  simp only []
  cases ops.mkdirRes ((archivePath ++ rel).dropLast) with
  | error m => simp
  | ok u =>
    cases ops.renameRes e.path (archivePath ++ rel) with
    | error m => simp
    | ok u2 =>
      cases ops.appendRes (logLine now rel (archivePath ++ rel)) with
      | error m => simp
      | ok u3 => simp

theorem stepEntry_no_build (ops : FsOps) (dryRun : Bool) (now : String) (e : Entry)
    (b1 b2 : Bool) : Effect.buildInvoke b1 b2 ∉ (stepEntry ops dryRun now e).1 := by
  unfold stepEntry
  cases hc : classify e with
  | skip => simp
  | ioErr m => simp
  | panic => simp
  | candidate rel =>
    cases dryRun with
    | true => simp
    | false => simpa using archiveCandidate_no_build ops now e rel b1 b2

theorem find_no_build (ops : FsOps) (dryRun : Bool) (now : String) (items : List WalkItem)
    (b1 b2 : Bool) : Effect.buildInvoke b1 b2 ∉ (find_unused_code ops dryRun now items).1 := by
  induction items with
  | nil => simp [find_unused_code]
  | cons it rest ih =>
    cases it with
    | error m => simpa [find_unused_code] using ih
    | ok e =>
      have hstep := stepEntry_no_build ops dryRun now e b1 b2
      simp only [find_unused_code]
      cases hs : stepEntry ops dryRun now e with
      | mk effs out =>
        rw [hs] at hstep
        cases out with
        | ok =>
          intro hmem
          rcases List.mem_append.mp hmem with hl | hr
          · exact hstep hl
          · exact ih hr
        | ioError m => exact hstep
        | panicked => exact hstep

/-- C9: the build command is invoked with both output streams suppressed,
only in live mode, and only after the scan-and-archive step completed; when
the build exits non-zero the tool prints the review/restore message and exits
with status 1, with no effect after the build invocation other than that
message — every archived file stays archived (no rollback) — and when it
exits zero the tool exits 0.  A dry-run invocation never invokes the build. -/
theorem build_verifier (args dargs : List String) (w : World)
    (hlive : parseDryRun args = false) (hdry : parseDryRun dargs = true)
    (hgit : w.gitOut = some "")
    (hscan : (find_unused_code w.ops false w.now w.walkItems).2 = ScanOutcome.ok) :
    (w.buildStatus = some false →
      main args w = ((find_unused_code w.ops false w.now w.walkItems).1 ++
        [Effect.buildInvoke true true, Effect.eprintln buildFailMsg], MainOutcome.exit 1)) ∧
    (w.buildStatus = some true →
      main args w = ((find_unused_code w.ops false w.now w.walkItems).1 ++
        [Effect.buildInvoke true true, Effect.println doneMsg], MainOutcome.exit 0)) ∧
    (∀ b1 b2 : Bool, Effect.buildInvoke b1 b2 ∉ (main dargs w).1) := by
  refine ⟨?_, ?_, ?_⟩
  · intro hb
    simp only [main, hlive, is_git_clean, hgit]
    cases hf : find_unused_code w.ops false w.now w.walkItems with
    | mk effs out =>
      rw [hf] at hscan
      cases out with
      | ok => simp [rebuild_workspace, hb]
      | ioError m => simp at hscan
      | panicked => simp at hscan
  · intro hb
    simp only [main, hlive, is_git_clean, hgit]
    cases hf : find_unused_code w.ops false w.now w.walkItems with
    | mk effs out =>
      rw [hf] at hscan
      cases out with
      | ok => simp [rebuild_workspace, hb]
      | ioError m => simp at hscan
      | panicked => simp at hscan
  · intro b1 b2
    simp only [main, hdry, is_git_clean, hgit]
    cases hf : find_unused_code w.ops true w.now w.walkItems with
    | mk effs out =>
      have hnb := find_no_build w.ops true w.now w.walkItems b1 b2
      rw [hf] at hnb
      cases out with
      | ok => simpa using hnb
      | ioError m =>
        intro hmem
        rcases List.mem_append.mp hmem with hl | hr
        · exact hnb hl
        · simp at hr
      | panicked => simpa using hnb

/-- A clean world holding one candidate whose live archive succeeds, but
whose rebuild fails. -/
def buildFailWorld : World := ⟨some "", [Except.ok sampleEntry], okOps, "t0", some false⟩

/-- Witness for C9: the live run on `buildFailWorld` archives, invokes the
build, reports the failure and exits 1. -/
theorem build_verifier_witness :
    main [] buildFailWorld =
      ((find_unused_code buildFailWorld.ops false buildFailWorld.now
          buildFailWorld.walkItems).1 ++
        [Effect.buildInvoke true true, Effect.eprintln buildFailMsg], MainOutcome.exit 1) :=
  (build_verifier [] ["--dry-run"] buildFailWorld rfl (by decide) rfl (by decide)).1 rfl

mutual

theorem walkTree_names (t : FsTree) (h : wfTree t = true) :
    ∀ x ∈ walkTree t, ∀ c, x.1.getLast? = some c →
      (c == ".") = false ∧ (c == "..") = false := by
  cases t with
  | file sz =>
    intro x hx c hc
    simp [walkTree] at hx
    rw [hx] at hc
    simp at hc
  | dir cs =>
    intro x hx c hc
    rw [walkTree] at hx
    rcases List.mem_cons.mp hx with hroot | hchild
    · rw [hroot] at hc; simp at hc
    · exact (walkChildren_names cs (by simpa [wfTree] using h) x hchild).2 c hc

theorem walkChildren_names (cs : FsChildren) (h : wfChildren cs = true) :
    ∀ x ∈ walkChildren cs, x.1 ≠ [] ∧ ∀ c, x.1.getLast? = some c →
      (c == ".") = false ∧ (c == "..") = false := by
  cases cs with
  | nil => intro x hx; simp [walkChildren] at hx
  | cons n t rest =>
    have hwf : (n == ".") = false ∧ (n == "..") = false ∧ wfTree t = true ∧
        wfChildren rest = true := by
      simpa [wfChildren, Bool.and_eq_true, Bool.not_eq_true', and_assoc] using h
    intro x hx
    rw [walkChildren] at hx
    rcases List.mem_append.mp hx with hmap | hrest
    · rw [List.mem_map] at hmap
      obtain ⟨y, hy, hxy⟩ := hmap
      rw [← hxy]
      refine ⟨by simp, ?_⟩
      intro c hc
      simp only [List.getLast?_cons] at hc
      cases hgl : y.1.getLast? with
      | none =>
        rw [hgl] at hc
        simp at hc
        rw [← hc]
        exact ⟨hwf.1, hwf.2.1⟩
      | some c2 =>
        rw [hgl] at hc
        simp at hc
        rw [← hc]
        exact walkTree_names t hwf.2.2.1 y hy c2 hgl
    · exact walkChildren_names rest hwf.2.2.2 x hrest

end

theorem walkChildren_nonempty_path (cs : FsChildren) (h : wfChildren cs = true)
    (x : FsPath × Bool × Nat) (hx : x ∈ walkChildren cs) : x.1 ≠ [] :=
  (walkChildren_names cs h x hx).1

theorem fileName_cons_valid (rel : FsPath) (hne : rel ≠ [])
    (hv : ∀ c, rel.getLast? = some c → (c == ".") = false ∧ (c == "..") = false) :
    (fileName? ("." :: rel)).isSome = true := by
  unfold fileName?
  rw [List.getLast?_cons]
  cases hgl : rel.getLast? with
  | none =>
    cases rel with
    | nil => exact absurd rfl hne
    | cons a l => rw [List.getLast?_cons] at hgl; simp at hgl
  | some c =>
    have hvc := hv c hgl
    have h1 : ¬ c = "." := by
      intro hcc; rw [hcc] at hvc; simp at hvc
    have h2 : ¬ c = ".." := by
      intro hcc; rw [hcc] at hvc; simp at hvc
    simp [h1, h2]

theorem stripPrefix_root_cons (rel : FsPath) :
    stripPrefix? rootPath ("." :: rel) = some rel := by
  simp [stripPrefix?, rootPath, List.isPrefixOf]

theorem classify_no_panic (e : Entry) (sz : Nat)
    (hmeta : e.metadata = Except.ok sz)
    (hfn : e.isFile = true → (fileName? e.path).isSome = true)
    (hroot : rootPath.isPrefixOf e.path = true) :
    classify e ≠ StepCase.panic := by
  have hs2 : stripPrefix? rootPath e.path = some (e.path.drop rootPath.length) := by
    unfold stripPrefix?
    rw [if_pos hroot]
  cases hfile : e.isFile with
  | false => unfold classify; rw [hfile]; simp
  | true =>
    have hsome := hfn hfile
    cases hfname : fileName? e.path with
    | none => rw [hfname] at hsome; simp at hsome
    | some filename =>
      unfold classify
      rw [hfile, hmeta, hfname, hs2]
      repeat' split
      all_goals simp_all

theorem archiveCandidate_no_panic (ops : FsOps) (now : String) (e : Entry) (rel : FsPath) :
    (archiveCandidate ops now e rel).2 ≠ ScanOutcome.panicked := by
  unfold archiveCandidate
  rw [parent_archive]
  simp only []
  cases ops.mkdirRes ((archivePath ++ rel).dropLast) with
  | error m => simp
  | ok u =>
    cases ops.renameRes e.path (archivePath ++ rel) with
    | error m => simp
    | ok u2 =>
      cases ops.appendRes (logLine now rel (archivePath ++ rel)) with
      | error m => simp
      | ok u3 => simp

theorem stepEntry_no_panic (ops : FsOps) (dryRun : Bool) (now : String) (e : Entry)
    (h : classify e ≠ StepCase.panic) :
    (stepEntry ops dryRun now e).2 ≠ ScanOutcome.panicked := by
  unfold stepEntry
  cases hc : classify e with
  | skip => simp
  | ioErr m => simp
  | panic => exact absurd hc h
  | candidate rel =>
    cases dryRun with
    | true => simp
    | false => simpa using archiveCandidate_no_panic ops now e rel

theorem find_no_panic (ops : FsOps) (dryRun : Bool) (now : String) (items : List WalkItem)
    (h : ∀ e, Except.ok e ∈ items → classify e ≠ StepCase.panic) :
    (find_unused_code ops dryRun now items).2 ≠ ScanOutcome.panicked := by
  induction items with
  | nil => simp [find_unused_code]
  | cons it rest ih =>
    have ih2 := ih (fun e2 he2 => h e2 (List.mem_cons_of_mem _ he2))
    cases it with
    | error m => simpa [find_unused_code] using ih2
    | ok e =>
      have hstep := stepEntry_no_panic ops dryRun now e (h e (List.mem_cons_self _ _))
      simp only [find_unused_code]
      cases hs : stepEntry ops dryRun now e with
      | mk effs out =>
        rw [hs] at hstep
        cases out with
        | ok => simpa using ih2
        | ioError m => simp
        | panicked => simp at hstep

/-- C10: on the walk of any well-formed directory tree rooted at the scan
root, every entry that passes the is-a-file test has a final file-name
component and a root-relative path — the two `unwrap` calls of the scan loop
always succeed — and the scan never panics. -/
theorem scan_panic_free (ops : FsOps) (dryRun : Bool) (now : String) (cs : FsChildren)
    (h : wfChildren cs = true) :
    (∀ x ∈ walkTree (FsTree.dir cs), x.2.1 = true →
       (fileName? ("." :: x.1)).isSome = true ∧
       (stripPrefix? rootPath ("." :: x.1)).isSome = true) ∧
    (find_unused_code ops dryRun now (walkItemsOf (FsTree.dir cs))).2 ≠
      ScanOutcome.panicked := by
  have hfn : ∀ x ∈ walkTree (FsTree.dir cs), x.2.1 = true →
      (fileName? ("." :: x.1)).isSome = true := by
    intro x hx hfile
    rw [walkTree] at hx
    rcases List.mem_cons.mp hx with hroot | hchild
    · rw [hroot] at hfile; simp at hfile
    · have hn := walkChildren_names cs h x hchild
      exact fileName_cons_valid x.1 hn.1 hn.2
  refine ⟨fun x hx hfile => ⟨hfn x hx hfile, by rw [stripPrefix_root_cons]; simp⟩, ?_⟩
  apply find_no_panic
  intro e he
  unfold walkItemsOf at he
  rw [List.mem_map] at he
  obtain ⟨x, hx, hex⟩ := he
  simp only [Except.ok.injEq] at hex
  rw [← hex]
  apply classify_no_panic (entryOfWalk x) x.2.2
  · rfl
  · intro hfile
    exact hfn x hx hfile
  · simp [entryOfWalk, rootPath, List.isPrefixOf]

/-- A small well-formed tree used by the C10 witness. -/
def sampleChildren : FsChildren :=
  FsChildren.cons "old.bak" (FsTree.file 10)
    (FsChildren.cons "src" (FsTree.dir (FsChildren.cons "lib_legacy.rs" (FsTree.file 3)
      FsChildren.nil)) FsChildren.nil)

/-- Witness for C10 on a concrete two-level tree. -/
theorem scan_panic_free_witness :
    wfChildren sampleChildren = true ∧
    (find_unused_code okOps false "t0" (walkItemsOf (FsTree.dir sampleChildren))).2 ≠
      ScanOutcome.panicked :=
  ⟨by decide, (scan_panic_free okOps false "t0" sampleChildren (by decide)).2⟩

end Cleanup
